import Mathlib

/-!
Verification of the revenue-log extraction pipeline of `app.py`.

The pipeline (`parse_revenue_data`) collapses whitespace, runs a primary
regular-expression pass (hour, quantity, amount), an alternate pass
(hour, amount, with a separate quantity lookup), a targeted recovery
battery for hours 14 and 15, and sorts the records by hour.
The LLM-candidate path (`parse_revenue_data_with_openai`, lines 341-387)
and the aggregator (`analyze_revenue_data`) are embedded as well.

Regular expressions are embedded as an AST (`RE`) together with a fueled
backtracking matcher (`mrun`) that mirrors Python `re` semantics on the
constructs the source uses: ordered alternation, greedy and lazy stars,
bounded repetition, capture groups, character classes and word
boundaries.  Each source pattern is transcribed node by node.

Machine reals (Python floats) are modelled as rationals: the pipeline
only parses decimal literals and compares records, so no rounding
behaviour is involved.  Python `str` values are modelled as `List Char`
(ASCII character classes; the inputs of interest are ASCII).
-/

namespace PDFRevenue

/-- Python `\s` (ASCII range): space, tab, newline, carriage return,
vertical tab, form feed. -/
def pySpace (c : Char) : Bool :=
  c = ' ' || c = '\t' || c = '\n' || c = '\r' || c = '\x0b' || c = '\x0c'

/-- Python `\w` (ASCII range): letters, digits, underscore. -/
def pyWord (c : Char) : Bool :=
  c.isAlpha || c.isDigit || c = '_'

/-- Character classes appearing in the source patterns: `\d`, `\s`,
`.` (any char except newline), and the class `[\s\.]`. -/
inductive CC where
  | digit
  | space
  | anyc
  | spaceDot
deriving DecidableEq, Repr

def ccTest : CC → Char → Bool
  | .digit, c => c.isDigit
  | .space, c => pySpace c
  | .anyc, c => !(c = '\n')
  | .spaceDot, c => pySpace c || c = '.'

/-- Regular-expression AST covering the constructs used in `app.py`:
literal characters, character classes, concatenation, ordered
alternation, greedy/lazy star, capture groups, and `\b`. -/
inductive RE where
  | eps
  | chr (c : Char)
  | cls (k : CC)
  | seq (a b : RE)
  | alt (a b : RE)
  | star (greedy : Bool) (a : RE)
  | grp (n : Nat) (a : RE)
  | wordB
deriving DecidableEq, Repr

/-- Capture list: entries `(group index, start, end)`, most recent first. -/
abbrev Caps := List (Nat × Nat × Nat)

/-- Whether position `i` of `t` holds a word character (out of range:
no). -/
def wordAtB (t : List Char) (i : Nat) : Bool :=
  match t[i]? with
  | some c => pyWord c
  | none => false

/-- Python `\b`: the positions left and right of `pos` disagree on
word-character-ness (start of string counts as non-word). -/
def atWordBoundary (t : List Char) (pos : Nat) : Bool :=
  (if pos = 0 then false else wordAtB t (pos - 1)) != wordAtB t pos

/-- Backtracking matcher.  `mrun fuel re t pos` returns all ways `re`
can match `t` starting at `pos`, as `(end position, captures)` pairs,
in Python's backtracking priority order (head = the match Python
commits to).  Fuel bounds recursion depth; `stdFuel` below is always
sufficient for the patterns and texts involved (each star body consumes
at least one character). -/
def mrun : Nat → RE → List Char → Nat → List (Nat × Caps)
  | 0, _, _, _ => []
  | f + 1, re, t, pos =>
    match re with
    | .eps => [(pos, [])]
    | .chr c =>
      match t[pos]? with
      | some d => if d = c then [(pos + 1, [])] else []
      | none => []
    | .cls k =>
      match t[pos]? with
      | some d => if ccTest k d then [(pos + 1, [])] else []
      | none => []
    | .seq a b =>
      (mrun f a t pos).flatMap fun pc =>
        (mrun f b t pc.1).map fun qc => (qc.1, qc.2 ++ pc.2)
    | .alt a b => mrun f a t pos ++ mrun f b t pos
    | .star g a =>
      let cont := (mrun f a t pos).flatMap fun pc =>
        if pos < pc.1 then
          (mrun f (.star g a) t pc.1).map fun qc => (qc.1, qc.2 ++ pc.2)
        else [pc]
      if g then cont ++ [(pos, [])] else (pos, []) :: cont
    | .grp n a =>
      (mrun f a t pos).map fun pc => (pc.1, (n, pos, pc.1) :: pc.2)
    | .wordB => if atWordBoundary t pos then [(pos, [])] else []

/-- Syntactic size of a regular expression, used only to compute fuel. -/
def reSize : RE → Nat
  | .eps | .chr _ | .cls _ | .wordB => 1
  | .seq a b | .alt a b => reSize a + reSize b + 1
  | .star _ a | .grp _ a => reSize a + 1

/-- Standard fuel: ample for every pattern/text pair in this
development (recursion depth is bounded by pattern depth plus the
number of star iterations, and every star body consumes a character). -/
def stdFuel (re : RE) (t : List Char) : Nat :=
  reSize re + t.length + 10

/-- `re.search` scanning from `pos`: try each start position in order,
return `(start, end, captures)` of the first (leftmost) match.  The
fuel argument bounds the scan; callers pass `t.length + 1`. -/
def searchFrom : Nat → RE → List Char → Nat → Option (Nat × Nat × Caps)
  | 0, _, _, _ => none
  | f + 1, re, t, pos =>
    if t.length < pos then none
    else
      match mrun (stdFuel re t) re t pos with
      | m :: _ => some (pos, m.1, m.2)
      | [] =>
        if pos < t.length then searchFrom f re t (pos + 1) else none

/-- `re.search(pattern, text)`. -/
def research (re : RE) (t : List Char) : Option (Nat × Nat × Caps) :=
  searchFrom (t.length + 1) re t 0

/-- `re.findall`: repeated leftmost search, resuming after each match
(advancing one position past an empty match, as Python does). -/
def findAllFrom : Nat → RE → List Char → Nat → List (Nat × Nat × Caps)
  | 0, _, _, _ => []
  | f + 1, re, t, pos =>
    match searchFrom (t.length + 1) re t pos with
    | none => []
    | some m =>
      m :: findAllFrom f re t (if m.2.1 = m.1 then m.1 + 1 else m.2.1)

def refindall (re : RE) (t : List Char) : List (Nat × Nat × Caps) :=
  findAllFrom (t.length + 1) re t 0

/-- Substring `t[s:e]`. -/
def slice (t : List Char) (s e : Nat) : List Char :=
  (t.drop s).take (e - s)

/-- First capture recorded for group `n` (the matcher records the most
recent first, matching Python's last-capture-wins). -/
def capLookup (n : Nat) : Caps → Option (Nat × Nat)
  | [] => none
  | (m, s, e) :: rest => if m = n then some (s, e) else capLookup n rest

/-- `match.group(n)` as a string; a group that did not participate
yields the empty string (Python yields `None`/`''`, and both feed a
numeric conversion that fails, which is how the empty string behaves
below). -/
def capStr (t : List Char) (c : Caps) (n : Nat) : List Char :=
  match capLookup n c with
  | some (s, e) => slice t s e
  | none => []

/-- Numeric value of a digit string. -/
def natOfDigits (s : List Char) : Nat :=
  s.foldl (fun a c => 10 * a + (c.toNat - '0'.toNat)) 0

/-- Python `int()` on a string: succeeds exactly on (here: unsigned)
digit strings.  The source only ever applies it to regex groups made of
digits, or to LLM-supplied quantity strings. -/
def parseNat (s : List Char) : Option Nat :=
  if s.isEmpty then none
  else if s.all Char.isDigit then some (natOfDigits s) else none

/-- Python `float()` on decimal literals `digits[.digits]` (at least
one digit overall), modelled exactly; any other character — in
particular a thousands separator — makes it fail, as `float` raises.
The value `intpart + fracpart / 10 ^ k` is built as a single
`mkRat` (same rational, kernel-computable). -/
def parseFloat (s : List Char) : Option ℚ :=
  let ip := s.takeWhile Char.isDigit
  let rest := s.dropWhile Char.isDigit
  match rest with
  | [] => if ip.isEmpty then none else some (mkRat (natOfDigits ip) 1)
  | '.' :: fp =>
    if fp.all Char.isDigit ∧ ¬(ip.isEmpty ∧ fp.isEmpty) then
      some (mkRat (natOfDigits ip * 10 ^ fp.length + natOfDigits fp)
        (10 ^ fp.length))
    else none
  | _ => none

/-- Python `f"{hour:02d}:00"` for the hour values arising here. -/
def timeStr (h : Nat) : String :=
  (if h < 10 then "0" else "") ++ toString h ++ ":00"

/-- One row of the output table (`Hour`, `Time`, `Revenue`, `Category`,
`Quantity`), as appended throughout `parse_revenue_data`. -/
structure Record where
  Hour : Nat
  Time : String
  Revenue : ℚ
  Category : String
  Quantity : Option Nat
deriving DecidableEq, Repr

/-- `re.sub(r'\s+', ' ', text)`: collapse each maximal whitespace run
to a single space (line 68).  The flag records whether the previous
character was whitespace. -/
def collapseWSAux : Bool → List Char → List Char
  | _, [] => []
  | inSp, c :: rest =>
    if pySpace c then
      if inSp then collapseWSAux true rest
      else ' ' :: collapseWSAux true rest
    else c :: collapseWSAux false rest

def collapseWS (t : List Char) : List Char :=
  collapseWSAux false t

/-! ### The source patterns, transcribed node by node -/

/-- Literal string as a regex. -/
def litL (s : List Char) : RE :=
  s.foldr (fun c r => .seq (.chr c) r) .eps

def litRE (s : String) : RE := litL s.data

/-- Ordered alternation of a nonempty list (first alternative has
priority, as in Python). -/
def altsRE : RE → List RE → RE
  | a, [] => a
  | a, b :: r => .alt a (altsRE b r)

/-- Concatenation of a list of regexes. -/
def seqsRE : List RE → RE
  | [] => .eps
  | [a] => a
  | a :: r => .seq a (seqsRE r)

def digitC : RE := .cls .digit

/-- `x+` as `x x*` (same backtracking priority for one-character
bodies). -/
def plusRE (a : RE) : RE := .seq a (.star true a)

/-- `\d{1,2}` (greedy: two digits preferred). -/
def h12RE : RE := .alt (.seq digitC digitC) digitC

/-- `\s*`. -/
def wsStar : RE := .star true (.cls .space)

/-- `.*?`. -/
def lazyAny : RE := .star false (.cls .anyc)

/-- `(?:HRS|HR5|HRS\'|HRS\"|\bH\b)` — the unit marker of the primary
and alternate patterns (line 76/80). -/
def markerRE : RE :=
  altsRE (litRE "HRS")
    [litRE "HR5", litRE "HRS'", litL ['H', 'R', 'S', '"'],
     .seq .wordB (.seq (.chr 'H') .wordB)]

/-- `\d+\.\d{2}`. -/
def amt2RE : RE :=
  .seq (plusRE digitC) (.seq (.chr '.') (.seq digitC digitC))

/-- `\d+\.\d+`. -/
def amtAnyRE : RE :=
  .seq (plusRE digitC) (.seq (.chr '.') (plusRE digitC))

/-- Line 76: `(\d{1,2})\s*(?:HRS|HR5|HRS\'|HRS\"|\bH\b)\s*(\d+)\s*\$(\d+\.\d{2})`. -/
def primaryPat : RE :=
  seqsRE [.grp 1 h12RE, wsStar, markerRE, wsStar, .grp 2 (plusRE digitC),
          wsStar, .chr '$', .grp 3 amt2RE]

/-- Line 80: `(\d{1,2})\s*(?:HRS|HR5|HRS\'|HRS\"|\bH\b).*?\$(\d+\.\d{2})`. -/
def altPat : RE :=
  seqsRE [.grp 1 h12RE, wsStar, markerRE, lazyAny, .chr '$', .grp 2 amt2RE]

/-- Line 132: `fr'{hour_str}\s*(?:HRS|HR5|HRS\'|HRS\"|\bH\b)\s*(\d+)'`
(the matched hour string is interpolated literally). -/
def qtyPat (hourStr : List Char) : RE :=
  seqsRE [litL hourStr, wsStar, markerRE, wsStar, .grp 1 (plusRE digitC)]

/-- `(?:{mh}|l{mh-10}|I{mh-10})` for `mh` in {14, 15}. -/
def mhAltRE (mh : Nat) : RE :=
  altsRE (litL (toString mh).data)
    [litL ('l' :: (toString (mh - 10)).data),
     litL ('I' :: (toString (mh - 10)).data)]

/-- `(?:HRS|HR|H|hrs|hr)`. -/
def markerR1 : RE :=
  altsRE (litRE "HRS") [litRE "HR", litRE "H", litRE "hrs", litRE "hr"]

/-- `(?:HRS|HR|H|hrs|hr|pm|PM)`. -/
def markerR2 : RE :=
  altsRE (litRE "HRS")
    [litRE "HR", litRE "H", litRE "hrs", litRE "hr", litRE "pm", litRE "PM"]

/-- Recovery pattern 1 (line 155):
`(?:{mh}|l{mh-10}|I{mh-10})\s*(?:HRS|HR|H|hrs|hr).*?\$(\d+\.\d+)`. -/
def recPat1 (mh : Nat) : RE :=
  seqsRE [mhAltRE mh, wsStar, markerR1, lazyAny, .chr '$', .grp 1 amtAnyRE]

/-- Recovery pattern 2 (line 156):
`(?:{mh}|l{mh-10}|I{mh-10})[\s\.]*(?:HRS|HR|H|hrs|hr|pm|PM).*?(\d+).*?\$(\d+\.\d+)`. -/
def recPat2 (mh : Nat) : RE :=
  seqsRE [mhAltRE mh, .star true (.cls .spaceDot), markerR2, lazyAny,
          .grp 1 (plusRE digitC), lazyAny, .chr '$', .grp 2 amtAnyRE]

/-- Recovery pattern 3 (line 157):
`(?:{mh}|l{mh-10}|I{mh-10}).*?(\d+).*?\$(\d+\.\d+)`. -/
def recPat3 (mh : Nat) : RE :=
  seqsRE [mhAltRE mh, lazyAny, .grp 1 (plusRE digitC), lazyAny,
          .chr '$', .grp 2 amtAnyRE]

/-- Recovery pattern 4 (line 159): `(?:{mh}|{mh}\s|\s{mh}\s).*?\$(\d+\.\d+)`. -/
def recPat4 (mh : Nat) : RE :=
  seqsRE [altsRE (litL (toString mh).data)
            [.seq (litL (toString mh).data) (.cls .space),
             seqsRE [.cls .space, litL (toString mh).data, .cls .space]],
          lazyAny, .chr '$', .grp 1 amtAnyRE]

/-- Recovery pattern 5 (line 161): `(?:l{mh-10}|I{mh-10}).*?\$(\d+\.\d+)`. -/
def recPat5 (mh : Nat) : RE :=
  seqsRE [altsRE (litL ('l' :: (toString (mh - 10)).data))
            [litL ('I' :: (toString (mh - 10)).data)],
          lazyAny, .chr '$', .grp 1 amtAnyRE]

/-- Recovery pattern 6 (line 163): `M\s*(?:HRS|HR|H).*?(\d+).*?\$(\d+\.\d+)`
(independent of the missing hour). -/
def recPat6 : RE :=
  seqsRE [.chr 'M', wsStar, altsRE (litRE "HRS") [litRE "HR", litRE "H"],
          lazyAny, .grp 1 (plusRE digitC), lazyAny, .chr '$', .grp 2 amtAnyRE]

/-- The ordered battery of lines 153-164 for a missing hour. -/
def recoveryPats (mh : Nat) : List RE :=
  [recPat1 mh, recPat2 mh, recPat3 mh, recPat4 mh, recPat5 mh, recPat6]

/-- Line 200: `M\s+HRS\s+(\d+)\s+\$(\d+\.\d+)`. -/
def mHrsPat : RE :=
  seqsRE [.chr 'M', plusRE (.cls .space), litRE "HRS", plusRE (.cls .space),
          .grp 1 (plusRE digitC), plusRE (.cls .space), .chr '$',
          .grp 2 amtAnyRE]

/-- `len(match.groups())` is the number of capture groups of the
pattern (line 172/175), independent of the text. -/
def numGroups : RE → Nat
  | .eps | .chr _ | .cls _ | .wordB => 0
  | .seq a b | .alt a b => numGroups a + numGroups b
  | .star _ a => numGroups a
  | .grp _ a => numGroups a + 1

/-! ### Python `sorted` -/

/-- Insert `x` after every element `y` with `le y x`.  Used to model
Python's stable `sorted(..., key=...)`: elements processed in document
order land after earlier elements with an equal or smaller key. -/
def insAfterLE (le : α → α → Bool) (x : α) : List α → List α
  | [] => [x]
  | y :: ys => if le y x then y :: insAfterLE le x ys else x :: y :: ys

/-- Python `sorted(l, key=...)`: stable ascending sort, modelled as a
left fold of stable insertions (kernel-computable, unlike
`List.mergeSort`). -/
def pysorted (le : α → α → Bool) (l : List α) : List α :=
  l.foldl (fun acc x => insAfterLE le x acc) []

/-! ### The pipeline passes of `parse_revenue_data` (lines 65-226) -/

/-- Lines 87-112: for each primary-pattern match, parse hour, quantity
and amount and append a record; any conversion failure is caught and
the entry skipped (the groups are digit strings, so none can fail). -/
def procPrimary (t : List Char) : List Caps → List Record
  | [] => []
  | c :: rest =>
    match parseNat (capStr t c 1), parseNat (capStr t c 2),
          parseFloat (capStr t c 3) with
    | some hour, some quantity, some amount =>
      { Hour := hour, Time := timeStr hour, Revenue := amount,
        Category := if hour < 15 then "Before 3:00 PM" else "After 3:00 PM",
        Quantity := some quantity } :: procPrimary t rest
    | _, _, _ => procPrimary t rest

/-- Lines 115-144: for each alternate-pattern match, skip it if its
hour is already present; otherwise parse the amount, look up a quantity
with the interpolated `qty_pattern`, and append.  `hour = int(hour_str)`
(line 117) sits outside the `try` block, so its failure would propagate
(it cannot, as proved below); amount/quantity conversion failures are
caught and skip the entry. -/
def procAlt (t : List Char) : List Caps → List Record → Except String (List Record)
  | [], data => .ok data
  | c :: rest, data =>
    match parseNat (capStr t c 1) with
    | none => .error "ValueError: int() outside try at line 117"
    | some hour =>
      if data.any (fun r => r.Hour == hour) then procAlt t rest data
      else
        match parseFloat (capStr t c 2) with
        | none => procAlt t rest data
        | some amount =>
          match research (qtyPat (capStr t c 1)) t with
          | none =>
            procAlt t rest (data ++
              [{ Hour := hour, Time := timeStr hour, Revenue := amount,
                 Category := if hour < 15 then "Before 3:00 PM" else "After 3:00 PM",
                 Quantity := none }])
          | some m =>
            match parseNat (capStr t m.2.2 1) with
            | none => procAlt t rest data
            | some q =>
              procAlt t rest (data ++
                [{ Hour := hour, Time := timeStr hour, Revenue := amount,
                   Category := if hour < 15 then "Before 3:00 PM" else "After 3:00 PM",
                   Quantity := some q }])

/-- Lines 166-195: try the recovery battery in order; the first pattern
that matches and whose groups convert yields `(quantity, revenue)`
according to its group count; a conversion failure moves on to the next
pattern (the `except: continue`). -/
def tryRecovery (t : List Char) : List RE → Option (Option Nat × ℚ)
  | [] => none
  | p :: rest =>
    match research p t with
    | none => tryRecovery t rest
    | some m =>
      if numGroups p = 1 then
        match parseFloat (capStr t m.2.2 1) with
        | some rev => some (none, rev)
        | none => tryRecovery t rest
      else if numGroups p = 2 then
        match parseNat (capStr t m.2.2 1), parseFloat (capStr t m.2.2 2) with
        | some q, some rev => some (some q, rev)
        | _, _ => tryRecovery t rest
      else tryRecovery t rest

/-- Lines 150-221 for one missing hour: the battery first; if it fails
and the hour is 14, the special `M HRS` search of lines 198-218 (whose
conversion failure appends nothing). -/
def recoveryFor (mh : Nat) (t : List Char) : Option Record :=
  match tryRecovery t (recoveryPats mh) with
  | some (q, rev) =>
    some { Hour := mh, Time := timeStr mh, Revenue := rev,
           Category := if mh < 15 then "Before 3:00 PM" else "After 3:00 PM",
           Quantity := q }
  | none =>
    if mh = 14 then
      match research mHrsPat t with
      | some m =>
        match parseNat (capStr t m.2.2 1), parseFloat (capStr t m.2.2 2) with
        | some q, some rev =>
          some { Hour := 14, Time := "14:00", Revenue := rev,
                 Category := "Before 3:00 PM", Quantity := some q }
        | _, _ => none
      | none => none
    else none

/-- The preprocessed text of line 68. -/
def textOf (text0 : List Char) : List Char := collapseWS text0

/-- The record list after the primary pass (lines 85-112). -/
def primaryRecords (text0 : List Char) : List Record :=
  procPrimary (textOf text0) ((refindall primaryPat (textOf text0)).map (fun m => m.2.2))

/-- The record list after the alternate pass (lines 115-144). -/
def afterAlt (text0 : List Char) : Except String (List Record) :=
  procAlt (textOf text0) ((refindall altPat (textOf text0)).map (fun m => m.2.2))
    (primaryRecords text0)

/-- `parse_revenue_data` (lines 65-226): collapse whitespace, the
primary pass, the alternate pass, recovery for hours 14 and 15 (tested
against the hour list computed at line 147, before either recovery
runs), and a stable sort by hour.  The `Except` layer carries the one
conversion that Python performs outside any `try` (line 117). -/
def parse_revenue_data (text0 : List Char) : Except String (List Record) :=
  match afterAlt text0 with
  | .error e => .error e
  | .ok data2 =>
    let existing := data2.map Record.Hour
    let d14 := if 14 ∈ existing then [] else (recoveryFor 14 (textOf text0)).toList
    let d15 := if 15 ∈ existing then [] else (recoveryFor 15 (textOf text0)).toList
    .ok (pysorted (fun a b => decide (a.Hour ≤ b.Hour)) (data2 ++ d14 ++ d15))

/-- The whole-input behaviour: `parse_revenue_data(None)` raises a
`TypeError` inside `re.sub` (line 68) before anything else runs. -/
def parse_opt : Option (List Char) → Except String (List Record)
  | none => .error "TypeError: expected string or bytes-like object"
  | some t => parse_revenue_data t

/-! ### The LLM-candidate path (lines 341-387) -/

/-- A quantity field as returned by the model: a string (possibly with
separators) or already numeric. -/
inductive OAIQty where
  | qstr (s : List Char)
  | qint (n : Int)
deriving DecidableEq, Repr

/-- One loosely-typed candidate object: `Hour` (numeric), `Revenue`
(string form, possibly `$`-prefixed), optional `Quantity`. -/
structure OAIItem where
  Hour : Int
  Revenue : List Char
  Quantity : Option OAIQty
deriving DecidableEq, Repr

/-- Python `int()` on an LLM quantity after `replace(',', '')`:
digits only (the source also accepts a numeric value as-is). -/
def oaiQtyVal : OAIQty → Option Nat
  | .qstr s => parseNat (s.filter (fun c => !(c = ',')))
  | .qint n => n.toNat'

/-- Lines 342-376: per item, drop it when `hour <= 0 or hour > 23`
(silently — a bare `continue`); strip a leading `$` from the revenue
string and convert (failure skips the item with a warning); convert the
quantity if present (failure skips the item). -/
def procOAIItems : List OAIItem → List Record
  | [] => []
  | item :: rest =>
    if item.Hour ≤ 0 ∨ 23 < item.Hour then procOAIItems rest
    else
      let revStr := match item.Revenue with
        | '$' :: r => r
        | r => r
      match parseFloat revStr with
      | none => procOAIItems rest
      | some revenue =>
        match item.Quantity with
        | none =>
          { Hour := item.Hour.toNat, Time := timeStr item.Hour.toNat,
            Revenue := revenue,
            Category := if item.Hour.toNat < 15 then "Before 3:00 PM" else "After 3:00 PM",
            Quantity := none } :: procOAIItems rest
        | some qv =>
          match oaiQtyVal qv with
          | none => procOAIItems rest
          | some q =>
            { Hour := item.Hour.toNat, Time := timeStr item.Hour.toNat,
              Revenue := revenue,
              Category := if item.Hour.toNat < 15 then "Before 3:00 PM" else "After 3:00 PM",
              Quantity := some q } :: procOAIItems rest

/-- Lines 341-387: process the collected items and sort by hour. -/
def processOAI (items : List OAIItem) : List Record :=
  pysorted (fun a b => decide (a.Hour ≤ b.Hour)) (procOAIItems items)

/-! ### The aggregator (`analyze_revenue_data`, lines 229-244) -/

/-- One row of the grouped statistics table. -/
structure BucketStats where
  Category : String
  Total_Revenue : ℚ
  Entry_Count : Nat
  Average_Revenue : ℚ
  Total_Quantity : Nat
deriving DecidableEq, Repr

/-- `df.groupby('Category').agg(...)`: one row per category present
(pandas sorts group keys), with sums, count, mean, and the quantity sum
treating missing quantities as contributing nothing (then
`fillna(0).astype(int)`). -/
def analyze_revenue_data (records : List Record) : List BucketStats :=
  if records.isEmpty then []
  else
    let cats := pysorted (fun a b => decide (a ≤ b))
      ((records.map Record.Category).dedup)
    cats.map fun cat =>
      let grp := records.filter (fun r => r.Category == cat)
      let total : ℚ := (grp.map Record.Revenue).sum
      let count := grp.length
      { Category := cat, Total_Revenue := total, Entry_Count := count,
        Average_Revenue := total / (count : ℚ),
        Total_Quantity := (grp.map (fun r => (r.Quantity.getD 0))).sum }

/-! ### Permutation facts about `pysorted` -/

theorem insAfterLE_perm (le : α → α → Bool) (x : α) :
    ∀ l : List α, List.Perm (insAfterLE le x l) (x :: l) := by
  intro l
  induction l with
  | nil => simp [insAfterLE]
  | cons y ys ih =>
    simp only [insAfterLE]
    by_cases h : le y x = true
    · simp only [h, if_true]
      exact (ih.cons y).trans (List.Perm.swap x y ys)
    · simp [h]

theorem pysorted_foldl_perm (le : α → α → Bool) :
    ∀ (l acc : List α), List.Perm (l.foldl (fun acc x => insAfterLE le x acc) acc) (acc ++ l) := by
  intro l
  induction l with
  | nil => intro acc; simp
  | cons x xs ih =>
    intro acc
    have h1 : List.Perm ((x :: xs).foldl (fun acc x => insAfterLE le x acc) acc)
        (insAfterLE le x acc ++ xs) := ih _
    have h2 : List.Perm (insAfterLE le x acc ++ xs) ((x :: acc) ++ xs) :=
      (insAfterLE_perm le x acc).append_right xs
    exact h1.trans (h2.trans List.perm_middle.symm)

theorem pysorted_perm (le : α → α → Bool) (l : List α) : List.Perm (pysorted le l) l :=
  pysorted_foldl_perm le l []

theorem mem_pysorted {le : α → α → Bool} {l : List α} {a : α} :
    a ∈ pysorted le l ↔ a ∈ l :=
  (pysorted_perm le l).mem_iff

/-! ### Slice facts -/

theorem take_add_take_drop (u : List α) : ∀ (i j : Nat),
    u.take i ++ (u.drop i).take j = u.take (i + j) := by
  induction u with
  | nil => intro i j; simp
  | cons x xs ih =>
    intro i j
    cases i with
    | zero => simp
    | succ i =>
      simp only [List.take_succ_cons, List.drop_succ_cons, Nat.succ_add,
        List.cons_append, ih]

theorem slice_append {t : List Char} {a b c : Nat} (h1 : a ≤ b) (h2 : b ≤ c) :
    slice t a b ++ slice t b c = slice t a c := by
  unfold slice
  have hd : t.drop b = (t.drop a).drop (b - a) := by
    rw [List.drop_drop]
    congr 1
    omega
  rw [hd]
  have := take_add_take_drop (t.drop a) (b - a) (c - b)
  rw [this]
  congr 1
  omega

theorem slice_one {t : List Char} {i : Nat} {ch : Char} (h : t[i]? = some ch) :
    slice t i (i + 1) = [ch] := by
  unfold slice
  obtain ⟨hlt, hget⟩ := List.getElem?_eq_some_iff.1 h
  rw [List.drop_eq_getElem_cons hlt]
  simp [hget]

theorem getElem?_lt_length {t : List Char} {i : Nat} {ch : Char}
    (h : t[i]? = some ch) : i < t.length :=
  (List.getElem?_eq_some_iff.1 h).1

/-! ### Matcher metatheory -/

/-- Indices of the capture groups occurring in a pattern. -/
def gIdxs : RE → List Nat
  | .eps | .chr _ | .cls _ | .wordB => []
  | .seq a b | .alt a b => gIdxs a ++ gIdxs b
  | .star _ a => gIdxs a
  | .grp n a => n :: gIdxs a

/-- Every capture recorded by the matcher belongs to a group of the
pattern. -/
theorem mrun_caps_idx : ∀ (f : Nat) (re : RE) (t : List Char) (pos p : Nat)
    (c : Caps), (p, c) ∈ mrun f re t pos → ∀ x ∈ c, x.1 ∈ gIdxs re := by
  intro f
  induction f with
  | zero => intro re t pos p c hm; simp [mrun] at hm
  | succ f ih =>
    intro re t pos p c hm x hx
    cases re with
    | eps =>
      simp [mrun] at hm
      rw [hm.2] at hx
      simp at hx
    | chr ch =>
      simp only [mrun] at hm
      rcases hget : t[pos]? with _ | d <;> rw [hget] at hm
      · simp at hm
      · by_cases hd : d = ch
        · simp [hd] at hm
          rw [hm.2] at hx; simp at hx
        · simp [hd] at hm
    | cls k =>
      simp only [mrun] at hm
      rcases hget : t[pos]? with _ | d <;> rw [hget] at hm
      · simp at hm
      · by_cases hd : ccTest k d = true
        · simp [hd] at hm
          rw [hm.2] at hx; simp at hx
        · simp [hd] at hm
    | seq a b =>
      simp only [mrun, List.mem_flatMap, List.mem_map] at hm
      obtain ⟨pc, hpc, qc, hqc, heq⟩ := hm
      have hc : c = qc.2 ++ pc.2 := by
        have := congrArg Prod.snd heq; simpa using this.symm
      rw [hc] at hx
      rcases List.mem_append.1 hx with h | h
      · exact List.mem_append.2 (Or.inr (ih b t pc.1 qc.1 qc.2 hqc x h))
      · exact List.mem_append.2 (Or.inl (ih a t pos pc.1 pc.2 hpc x h))
    | alt a b =>
      simp only [mrun, List.mem_append] at hm
      rcases hm with h | h
      · exact List.mem_append.2 (Or.inl (ih a t pos p c h x hx))
      · exact List.mem_append.2 (Or.inr (ih b t pos p c h x hx))
    | star g a =>
      simp only [mrun] at hm
      have hcont : ∀ q d, (q, d) ∈ ((mrun f a t pos).flatMap fun pc =>
          if pos < pc.1 then
            (mrun f (.star g a) t pc.1).map fun qc => (qc.1, qc.2 ++ pc.2)
          else [pc]) → ∀ y ∈ d, y.1 ∈ gIdxs (.star g a) := by
        intro q d hqd y hy
        simp only [List.mem_flatMap] at hqd
        obtain ⟨pc, hpc, hin⟩ := hqd
        by_cases hlt : pos < pc.1
        · simp only [hlt, if_true, List.mem_map] at hin
          obtain ⟨qc, hqc, heq⟩ := hin
          have hd : d = qc.2 ++ pc.2 := by
            have := congrArg Prod.snd heq; simpa using this.symm
          rw [hd] at hy
          rcases List.mem_append.1 hy with h | h
          · exact ih (.star g a) t pc.1 qc.1 qc.2 hqc y h
          · exact ih a t pos pc.1 pc.2 hpc y h
        · simp only [hlt, if_false, List.mem_singleton] at hin
          rw [← hin] at hpc
          exact ih a t pos q d hpc y hy
      cases g with
      | true =>
        simp only [if_true, List.mem_append, List.mem_singleton] at hm
        rcases hm with h | h
        · exact hcont p c h x hx
        · have : c = [] := by
            have := congrArg Prod.snd h; simpa using this
          rw [this] at hx; simp at hx
      | false =>
        simp only [Bool.false_eq_true, if_false, List.mem_cons] at hm
        rcases hm with h | h
        · have : c = [] := by
            have := congrArg Prod.snd h; simpa using this
          rw [this] at hx; simp at hx
        · exact hcont p c h x hx
    | grp n a =>
      simp only [mrun, List.mem_map] at hm
      obtain ⟨pc, hpc, heq⟩ := hm
      have hc : c = (n, pos, pc.1) :: pc.2 := by
        have := congrArg Prod.snd heq; simpa using this.symm
      rw [hc] at hx
      rcases List.mem_cons.1 hx with h | h
      · rw [h]; simp [gIdxs]
      · simp only [gIdxs, List.mem_cons]
        exact Or.inr (ih a t pos pc.1 pc.2 hpc x h)
    | wordB =>
      simp only [mrun] at hm
      by_cases hb : atWordBoundary t pos = true
      · simp [hb] at hm
        rw [hm.2] at hx; simp at hx
      · simp [hb] at hm

/-- Patterns built from digit classes by concatenation and
alternation. -/
def donly : RE → Bool
  | .cls .digit => true
  | .seq a b => donly a && donly b
  | .alt a b => donly a && donly b
  | _ => false

/-- A match of a digits-only pattern records no captures, consumes at
least one character, stays within the text, and covers a nonempty
all-digit substring. -/
theorem mrun_donly : ∀ (f : Nat) (re : RE), donly re = true →
    ∀ (t : List Char) (pos p : Nat) (c : Caps), (p, c) ∈ mrun f re t pos →
    c = [] ∧ pos < p ∧ p ≤ t.length ∧ slice t pos p ≠ [] ∧
      (slice t pos p).all Char.isDigit := by
  intro f
  induction f with
  | zero => intro re _ t pos p c hm; simp [mrun] at hm
  | succ f ih =>
    intro re hre t pos p c hm
    cases re with
    | eps => simp [donly] at hre
    | chr ch => simp [donly] at hre
    | cls k =>
      cases k with
      | digit =>
        simp only [mrun] at hm
        rcases hget : t[pos]? with _ | d <;> rw [hget] at hm
        · simp at hm
        · by_cases hd : d.isDigit
          · simp only [ccTest, hd, if_true, List.mem_singleton] at hm
            have hp : p = pos + 1 := by
              have := congrArg Prod.fst hm; simpa using this
            have hc : c = [] := by
              have := congrArg Prod.snd hm; simpa using this
            have hs := slice_one hget
            refine ⟨hc, ?_, ?_, ?_, ?_⟩
            · omega
            · have := getElem?_lt_length hget; omega
            · rw [hp, hs]; simp
            · rw [hp, hs]; simpa using hd
          · simp [ccTest, hd] at hm
      | space => simp [donly] at hre
      | anyc => simp [donly] at hre
      | spaceDot => simp [donly] at hre
    | seq a b =>
      simp only [donly, Bool.and_eq_true] at hre
      simp only [mrun, List.mem_flatMap, List.mem_map] at hm
      obtain ⟨hra, hrb⟩ := hre
      obtain ⟨pc, hpc, qc, hqc, heq⟩ := hm
      obtain ⟨ha1, ha2, ha3, ha4, ha5⟩ := ih a hra t pos pc.1 pc.2 hpc
      obtain ⟨hb1, hb2, hb3, hb4, hb5⟩ := ih b hrb t pc.1 qc.1 qc.2 hqc
      have hp : p = qc.1 := by
        have := congrArg Prod.fst heq; simpa using this.symm
      have hc : c = qc.2 ++ pc.2 := by
        have := congrArg Prod.snd heq; simpa using this.symm
      have hsl : slice t pos pc.1 ++ slice t pc.1 qc.1 = slice t pos qc.1 :=
        slice_append (by omega) (by omega)
      subst hp
      refine ⟨by rw [hc, ha1, hb1]; rfl, by omega, hb3, ?_, ?_⟩
      · rw [← hsl]; intro hemp
        exact ha4 (List.append_eq_nil.1 hemp).1
      · rw [← hsl, List.all_append]
        exact (Bool.and_eq_true _ _).mpr ⟨ha5, hb5⟩
    | alt a b =>
      simp only [donly, Bool.and_eq_true] at hre
      simp only [mrun, List.mem_append] at hm
      rcases hm with h | h
      · exact ih a hre.1 t pos p c h
      · exact ih b hre.2 t pos p c h
    | star g a => simp [donly] at hre
    | grp n a => simp [donly] at hre
    | wordB => simp [donly] at hre

/-- Whether every string matched by the pattern must contain the
character `ch`. -/
def needsC (ch : Char) : RE → Bool
  | .chr c => c = ch
  | .seq a b => needsC ch a || needsC ch b
  | .alt a b => needsC ch a && needsC ch b
  | .grp _ a => needsC ch a
  | _ => false

/-- A pattern that needs a character cannot match a text that lacks
it. -/
theorem mrun_needsC : ∀ (f : Nat) (ch : Char) (re : RE), needsC ch re = true →
    ∀ (t : List Char), ch ∉ t → ∀ pos, mrun f re t pos = [] := by
  intro f
  induction f with
  | zero => intro ch re _ t _ pos; simp [mrun]
  | succ f ih =>
    intro ch re hre t hch pos
    cases re with
    | eps => simp [needsC] at hre
    | chr c =>
      have hc : c = ch := by simpa [needsC] using hre
      subst hc
      simp only [mrun]
      rcases hget : t[pos]? with _ | d
      · rfl
      · have hd : d ∈ t := List.getElem?_mem hget
        have : ¬(d = c) := fun h => hch (h ▸ hd)
        simp [this]
    | cls k => simp [needsC] at hre
    | seq a b =>
      simp only [needsC, Bool.or_eq_true] at hre
      simp only [mrun]
      rcases hre with h | h
      · rw [ih ch a h t hch pos]; rfl
      · rw [List.flatMap_eq_nil_iff]
        intro pc _
        rw [ih ch b h t hch pc.1]; rfl
    | alt a b =>
      simp only [needsC, Bool.and_eq_true] at hre
      simp only [mrun, ih ch a hre.1 t hch pos, ih ch b hre.2 t hch pos]
      rfl
    | star g a => simp [needsC] at hre
    | grp n a =>
      have h : needsC ch a = true := by simpa [needsC] using hre
      simp only [mrun, ih ch a h t hch pos]
      rfl
    | wordB => simp [needsC] at hre

/-- A successful search returns a member of the matcher's result list
at the reported start position. -/
theorem searchFrom_mem : ∀ (f : Nat) (re : RE) (t : List Char) (pos : Nat)
    (m : Nat × Nat × Caps), searchFrom f re t pos = some m →
    (m.2.1, m.2.2) ∈ mrun (stdFuel re t) re t m.1 := by
  intro f
  induction f with
  | zero => intro re t pos m hm; simp [searchFrom] at hm
  | succ f ih =>
    intro re t pos m hm
    simp only [searchFrom] at hm
    by_cases hlen : t.length < pos
    · simp [hlen] at hm
    · simp only [hlen, if_false] at hm
      rcases hrun : mrun (stdFuel re t) re t pos with _ | ⟨x, xs⟩ <;>
        rw [hrun] at hm
      · by_cases hpos : pos < t.length
        · simp only [hpos, if_true] at hm
          exact ih re t (pos + 1) m hm
        · simp [hpos] at hm
      · simp only [Option.some_inj] at hm
        rw [← hm]
        simp only []
        rw [hrun]
        exact List.mem_cons_self x xs

/-- Every match reported by `findall` is a member of the matcher's
result list at its start position. -/
theorem findAllFrom_mem : ∀ (f : Nat) (re : RE) (t : List Char) (pos : Nat)
    (m : Nat × Nat × Caps), m ∈ findAllFrom f re t pos →
    (m.2.1, m.2.2) ∈ mrun (stdFuel re t) re t m.1 := by
  intro f
  induction f with
  | zero => intro re t pos m hm; simp [findAllFrom] at hm
  | succ f ih =>
    intro re t pos m hm
    simp only [findAllFrom] at hm
    rcases hs : searchFrom (t.length + 1) re t pos with _ | m0 <;> rw [hs] at hm
    · simp at hm
    · rcases List.mem_cons.1 hm with h | h
      · rw [h]; exact searchFrom_mem _ re t pos m0 hs
      · exact ih re t _ m h

theorem refindall_mem {re : RE} {t : List Char} {m : Nat × Nat × Caps}
    (hm : m ∈ refindall re t) :
    (m.2.1, m.2.2) ∈ mrun (stdFuel re t) re t m.1 :=
  findAllFrom_mem _ re t 0 m hm

/-- If the matcher fails everywhere, so does `search`. -/
theorem searchFrom_none : ∀ (f : Nat) (re : RE) (t : List Char) (pos : Nat),
    (∀ q, mrun (stdFuel re t) re t q = []) → searchFrom f re t pos = none := by
  intro f
  induction f with
  | zero => intro re t pos _; rfl
  | succ f ih =>
    intro re t pos hall
    simp only [searchFrom, hall pos]
    by_cases hlen : t.length < pos
    · simp [hlen]
    · simp only [hlen, if_false]
      by_cases hpos : pos < t.length
      · simp only [hpos, if_true]; exact ih re t (pos + 1) hall
      · simp [hpos]

theorem research_none {re : RE} {t : List Char}
    (hall : ∀ q, mrun (stdFuel re t) re t q = []) : research re t = none :=
  searchFrom_none _ re t 0 hall

theorem refindall_nil {re : RE} {t : List Char}
    (hall : ∀ q, mrun (stdFuel re t) re t q = []) : refindall re t = [] := by
  unfold refindall findAllFrom
  rcases hlen : t.length + 1 with _ | f
  · omega
  · rw [searchFrom_none _ re t 0 hall]

/-- Looking a group up past captures of other groups. -/
theorem capLookup_append_of_ne {n : Nat} {c2 : Caps} (h : ∀ x ∈ c2, x.1 ≠ n) :
    ∀ c1, capLookup n (c2 ++ c1) = capLookup n c1 := by
  induction c2 with
  | nil => intro c1; rfl
  | cons y ys ih =>
    intro c1
    obtain ⟨m, s, e⟩ := y
    have hm : m ≠ n := h (m, s, e) (List.mem_cons_self _ _)
    simp only [List.cons_append, capLookup, if_neg hm]
    exact ih (fun x hx => h x (List.mem_cons_of_mem _ hx)) c1

/-- A nonempty all-digit string parses as a natural number. -/
theorem parseNat_isSome_of_digits {s : List Char} (h1 : s ≠ [])
    (h2 : s.all Char.isDigit = true) : (parseNat s).isSome := by
  unfold parseNat
  have : s.isEmpty = false := by
    cases s with
    | nil => exact absurd rfl h1
    | cons a l => rfl
  rw [this]
  simp [h2]

/-- The part of the alternate pattern after the hour group. -/
def altRest : RE :=
  seqsRE [wsStar, markerRE, lazyAny, .chr '$', .grp 2 amt2RE]

theorem altPat_eq : altPat = .seq (.grp 1 h12RE) altRest := rfl

theorem gIdxs_altRest : gIdxs altRest = [2] := by decide

theorem donly_h12 : donly h12RE = true := by decide

/-- Group 1 of any alternate-pattern match is a nonempty digit
string: the capture recorded for the hour group spans the characters
consumed by `\d{1,2}`. -/
theorem altPat_g1_digits : ∀ (f : Nat) (t : List Char) (pos p : Nat) (c : Caps),
    (p, c) ∈ mrun f altPat t pos →
    capStr t c 1 ≠ [] ∧ (capStr t c 1).all Char.isDigit := by
  intro f t pos p c hm
  cases f with
  | zero => simp [mrun] at hm
  | succ f =>
    rw [altPat_eq] at hm
    simp only [mrun, List.mem_flatMap, List.mem_map] at hm
    obtain ⟨pc, hpc, qc, hqc, heq⟩ := hm
    have hc : c = qc.2 ++ pc.2 := by
      have := congrArg Prod.snd heq; simpa using this.symm
    cases f with
    | zero => simp [mrun] at hpc
    | succ f =>
      simp only [mrun, List.mem_map] at hpc
      obtain ⟨pc0, hpc0, heq0⟩ := hpc
      have hd := mrun_donly f h12RE donly_h12 t pos pc0.1 pc0.2 hpc0
      have hpcsnd : pc.2 = (1, pos, pc0.1) :: pc0.2 := by
        have := congrArg Prod.snd heq0; simpa using this.symm
      have hq2 : ∀ x ∈ qc.2, x.1 ≠ 1 := by
        intro x hx
        have := mrun_caps_idx _ altRest t pc.1 qc.1 qc.2 hqc x hx
        rw [gIdxs_altRest] at this
        simp at this
        omega
      have hcap : capLookup 1 c = some (pos, pc0.1) := by
        rw [hc, capLookup_append_of_ne hq2, hpcsnd, hd.1]
        simp [capLookup]
      unfold capStr
      rw [hcap]
      exact ⟨hd.2.2.2.1, hd.2.2.2.2⟩

/-- Each alternate-pass candidate has a parseable hour group, so the
conversion at line 117 cannot raise. -/
theorem alt_hour_parses {t : List Char} {m : Nat × Nat × Caps}
    (hm : m ∈ refindall altPat t) :
    (parseNat (capStr t m.2.2 1)).isSome := by
  have h := refindall_mem hm
  have := altPat_g1_digits _ t m.1 m.2.1 m.2.2 h
  exact parseNat_isSome_of_digits this.1 this.2

/-- The alternate pass cannot fail when every candidate's hour group
parses. -/
theorem procAlt_ok : ∀ (cs : List Caps) (t : List Char) (data : List Record),
    (∀ c ∈ cs, (parseNat (capStr t c 1)).isSome) →
    ∃ out, procAlt t cs data = .ok out := by
  intro cs
  induction cs with
  | nil => intro t data _; exact ⟨data, rfl⟩
  | cons c rest ih =>
    intro t data hall
    have hc := hall c (List.mem_cons_self _ _)
    have hrest : ∀ x ∈ rest, (parseNat (capStr t x 1)).isSome :=
      fun x hx => hall x (List.mem_cons_of_mem _ hx)
    simp only [procAlt]
    rcases hp : parseNat (capStr t c 1) with _ | hour
    · rw [hp] at hc; simp at hc
    · dsimp only
      rcases hdup : data.any (fun r => r.Hour == hour) with _ | _
      · simp only [Bool.false_eq_true, if_false]
        rcases hf : parseFloat (capStr t c 2) with _ | amount
        · exact ih t data hrest
        · dsimp only
          rcases hs : research (qtyPat (capStr t c 1)) t with _ | m
          · exact ih t _ hrest
          · dsimp only
            rcases hq : parseNat (capStr t m.2.2 1) with _ | q
            · exact ih t data hrest
            · exact ih t _ hrest
      · simp only [if_true]
        exact ih t data hrest

/-! ### Pass invariants -/

/-- The category function the spec describes: a pure function of the
hour and the fixed threshold hour 15. -/
def categoryOf (h : Nat) : String :=
  if h < 15 then "Before 3:00 PM" else "After 3:00 PM"

/-- Every primary-pass record carries the hour-derived category and an
explicit quantity. -/
theorem procPrimary_mem : ∀ (cs : List Caps) (t : List Char) (r : Record),
    r ∈ procPrimary t cs →
    r.Category = categoryOf r.Hour ∧ r.Quantity.isSome := by
  intro cs
  induction cs with
  | nil => intro t r hr; simp [procPrimary] at hr
  | cons c rest ih =>
    intro t r hr
    simp only [procPrimary] at hr
    rcases h1 : parseNat (capStr t c 1) with _ | hour <;> rw [h1] at hr
    · exact ih t r hr
    · rcases h2 : parseNat (capStr t c 2) with _ | qty <;> rw [h2] at hr
      · exact ih t r hr
      · rcases h3 : parseFloat (capStr t c 3) with _ | amt <;> rw [h3] at hr
        · exact ih t r hr
        · rcases List.mem_cons.1 hr with h | h
          · rw [h]; exact ⟨rfl, rfl⟩
          · exact ih t r h

/-- A false `any` on hour equality means the hour is absent. -/
theorem hour_not_mem_of_any_false {data : List Record} {hour : Nat}
    (h : data.any (fun r => r.Hour == hour) = false) :
    hour ∉ data.map Record.Hour := by
  intro hmem
  obtain ⟨r, hr, hh⟩ := List.mem_map.1 hmem
  have := List.any_eq_false.1 h r hr
  simp [hh] at this

/-- Alternate-pass output: each record either was already present, or
is a fresh-hour record carrying the hour-derived category. -/
theorem procAlt_mem : ∀ (cs : List Caps) (t : List Char)
    (data out : List Record), procAlt t cs data = .ok out → ∀ r ∈ out,
    r ∈ data ∨ (r.Hour ∉ data.map Record.Hour ∧ r.Category = categoryOf r.Hour) := by
  intro cs
  induction cs with
  | nil =>
    intro t data out hok r hr
    simp only [procAlt, Except.ok.injEq] at hok
    rw [← hok] at hr
    exact Or.inl hr
  | cons c rest ih =>
    intro t data out hok r hr
    simp only [procAlt] at hok
    rcases h1 : parseNat (capStr t c 1) with _ | hour
    · rw [h1] at hok; simp at hok
    · rw [h1] at hok
      dsimp only at hok
      rcases hdup : data.any (fun x => x.Hour == hour) with _ | _
      · rw [hdup] at hok
        simp only [Bool.false_eq_true, if_false] at hok
        have hfresh := hour_not_mem_of_any_false hdup
        rcases h2 : parseFloat (capStr t c 2) with _ | amount <;>
          rw [h2] at hok <;> dsimp only at hok
        · exact ih t data out hok r hr
        · have step : ∀ (q? : Option Nat),
              procAlt t rest (data ++
                  [{ Hour := hour, Time := timeStr hour, Revenue := amount,
                     Category := if hour < 15 then "Before 3:00 PM" else "After 3:00 PM",
                     Quantity := q? }]) = .ok out →
                r ∈ data ∨ (r.Hour ∉ data.map Record.Hour ∧
                  r.Category = categoryOf r.Hour) := by
            intro q? hok2
            rcases ih t _ out hok2 r hr with hin | ⟨hno, hcat⟩
            · rcases List.mem_append.1 hin with h | h
              · exact Or.inl h
              · have hreq : r = { Hour := hour, Time := timeStr hour,
                                  Revenue := amount,
                                  Category := if hour < 15 then "Before 3:00 PM" else "After 3:00 PM",
                                  Quantity := q? } := by simpa using h
                refine Or.inr ⟨?_, ?_⟩
                · rw [hreq]; exact hfresh
                · rw [hreq]; rfl
            · refine Or.inr ⟨?_, hcat⟩
              intro hmem
              exact hno (by rw [List.map_append, List.mem_append]; exact Or.inl hmem)
          rcases h3 : research (qtyPat (capStr t c 1)) t with _ | m <;>
            rw [h3] at hok <;> dsimp only at hok
          · exact step none hok
          · rcases h4 : parseNat (capStr t m.2.2 1) with _ | q <;> rw [h4] at hok
            · exact ih t data out hok r hr
            · exact step (some q) hok
      · rw [hdup] at hok
        simp only [if_true] at hok
        exact ih t data out hok r hr

/-- The alternate pass preserves distinctness of hours. -/
theorem procAlt_nodup : ∀ (cs : List Caps) (t : List Char)
    (data out : List Record), procAlt t cs data = .ok out →
    (data.map Record.Hour).Nodup → (out.map Record.Hour).Nodup := by
  intro cs
  induction cs with
  | nil =>
    intro t data out hok hnd
    simp only [procAlt, Except.ok.injEq] at hok
    rw [← hok]; exact hnd
  | cons c rest ih =>
    intro t data out hok hnd
    simp only [procAlt] at hok
    rcases h1 : parseNat (capStr t c 1) with _ | hour
    · rw [h1] at hok; simp at hok
    · rw [h1] at hok
      dsimp only at hok
      rcases hdup : data.any (fun x => x.Hour == hour) with _ | _
      · rw [hdup] at hok
        simp only [Bool.false_eq_true, if_false] at hok
        have hfresh := hour_not_mem_of_any_false hdup
        have hnd2 : ∀ (rec : Record), rec.Hour = hour →
            ((data ++ [rec]).map Record.Hour).Nodup := by
          intro rec hh
          rw [List.map_append]
          rw [List.nodup_append]
          refine ⟨hnd, by simp, ?_⟩
          intro x hx
          simp only [List.map_cons, List.map_nil, List.mem_singleton, hh]
          intro heq
          rw [heq] at hx
          exact hfresh hx
        rcases h2 : parseFloat (capStr t c 2) with _ | amount <;>
          rw [h2] at hok <;> dsimp only at hok
        · exact ih t data out hok hnd
        · rcases h3 : research (qtyPat (capStr t c 1)) t with _ | m <;>
            rw [h3] at hok <;> dsimp only at hok
          · exact ih t _ out hok (hnd2 _ rfl)
          · rcases h4 : parseNat (capStr t m.2.2 1) with _ | q <;> rw [h4] at hok
            · exact ih t data out hok hnd
            · exact ih t _ out hok (hnd2 _ rfl)
      · rw [hdup] at hok
        simp only [if_true] at hok
        exact ih t data out hok hnd

/-- A recovery record for hour `mh` has hour `mh` and the hour-derived
category. -/
theorem recoveryFor_spec {mh : Nat} {t : List Char} {r : Record}
    (h : recoveryFor mh t = some r) :
    r.Hour = mh ∧ r.Category = categoryOf mh := by
  unfold recoveryFor at h
  rcases h1 : tryRecovery t (recoveryPats mh) with _ | qr <;> rw [h1] at h
  · by_cases h14 : mh = 14
    · rw [h14] at h
      simp only [if_true] at h
      rcases h2 : research mHrsPat t with _ | m <;> rw [h2] at h <;>
        dsimp only at h
      · simp at h
      · rcases h3 : parseNat (capStr t m.2.2 1) with _ | q <;> rw [h3] at h
        · simp at h
        · rcases h4 : parseFloat (capStr t m.2.2 2) with _ | rev <;> rw [h4] at h
          · simp at h
          · simp only [Option.some_inj] at h
            rw [← h, h14]
            exact ⟨rfl, rfl⟩
    · rw [if_neg h14] at h
      simp at h
  · simp only [Option.some_inj] at h
    rw [← h]
    exact ⟨rfl, rfl⟩

/-- Every LLM-path record has the hour-derived category and an hour in
(0, 23]. -/
theorem procOAIItems_mem : ∀ (items : List OAIItem) (r : Record),
    r ∈ procOAIItems items →
    r.Category = categoryOf r.Hour ∧ 1 ≤ r.Hour ∧ r.Hour ≤ 23 := by
  intro items
  induction items with
  | nil => intro r hr; simp [procOAIItems] at hr
  | cons item rest ih =>
    intro r hr
    simp only [procOAIItems] at hr
    by_cases hrange : item.Hour ≤ 0 ∨ 23 < item.Hour
    · rw [if_pos hrange] at hr
      exact ih r hr
    · rw [if_neg hrange] at hr
      push_neg at hrange
      have hbounds : 1 ≤ item.Hour.toNat ∧ item.Hour.toNat ≤ 23 := by omega
      rcases h2 : parseFloat (match item.Revenue with
          | '$' :: rr => rr
          | rr => rr) with _ | revenue <;> rw [h2] at hr <;> dsimp only at hr
      · exact ih r hr
      · rcases hq : item.Quantity with _ | qv <;> rw [hq] at hr <;>
          dsimp only at hr
        · rcases List.mem_cons.1 hr with h | h
          · rw [h]; exact ⟨rfl, hbounds⟩
          · exact ih r h
        · rcases h3 : oaiQtyVal qv with _ | q <;> rw [h3] at hr
          · exact ih r hr
          · rcases List.mem_cons.1 hr with h | h
            · rw [h]; exact ⟨rfl, hbounds⟩
            · exact ih r h

/-! ### Composition of the whole pipeline -/

/-- The sort key used at line 224. -/
def hourLE (a b : Record) : Bool := decide (a.Hour ≤ b.Hour)

theorem parse_eq_sorted {t0 : List Char} {data2 : List Record}
    (h : afterAlt t0 = .ok data2) :
    parse_revenue_data t0 = .ok (pysorted hourLE (data2 ++
      (if 14 ∈ data2.map Record.Hour then []
       else (recoveryFor 14 (textOf t0)).toList) ++
      (if 15 ∈ data2.map Record.Hour then []
       else (recoveryFor 15 (textOf t0)).toList))) := by
  unfold parse_revenue_data
  rw [h]
  rfl

theorem parse_ok_elim {t0 : List Char} {l : List Record}
    (h : parse_revenue_data t0 = .ok l) :
    ∃ data2, afterAlt t0 = .ok data2 ∧
      l = pysorted hourLE (data2 ++
        (if 14 ∈ data2.map Record.Hour then []
         else (recoveryFor 14 (textOf t0)).toList) ++
        (if 15 ∈ data2.map Record.Hour then []
         else (recoveryFor 15 (textOf t0)).toList)) := by
  rcases ha : afterAlt t0 with _ | data2
  · unfold parse_revenue_data at h
    rw [ha] at h
    simp at h
  · refine ⟨data2, rfl, ?_⟩
    have he := parse_eq_sorted ha
    rw [he] at h
    cases h
    rfl

/-- The alternate pass only extends its input. -/
theorem procAlt_extends : ∀ (cs : List Caps) (t : List Char)
    (data out : List Record), procAlt t cs data = .ok out →
    ∃ ext, out = data ++ ext := by
  intro cs
  induction cs with
  | nil =>
    intro t data out hok
    simp only [procAlt, Except.ok.injEq] at hok
    exact ⟨[], by rw [← hok]; simp⟩
  | cons c rest ih =>
    intro t data out hok
    simp only [procAlt] at hok
    rcases h1 : parseNat (capStr t c 1) with _ | hour
    · rw [h1] at hok; simp at hok
    · rw [h1] at hok
      dsimp only at hok
      rcases hdup : data.any (fun x => x.Hour == hour) with _ | _
      · rw [hdup] at hok
        simp only [Bool.false_eq_true, if_false] at hok
        rcases h2 : parseFloat (capStr t c 2) with _ | amount <;>
          rw [h2] at hok <;> dsimp only at hok
        · exact ih t data out hok
        · rcases h3 : research (qtyPat (capStr t c 1)) t with _ | m <;>
            rw [h3] at hok <;> dsimp only at hok
          · obtain ⟨ext, hext⟩ := ih t _ out hok
            exact ⟨_, by rw [hext, List.append_assoc]⟩
          · rcases h4 : parseNat (capStr t m.2.2 1) with _ | q <;> rw [h4] at hok
            · exact ih t data out hok
            · obtain ⟨ext, hext⟩ := ih t _ out hok
              exact ⟨_, by rw [hext, List.append_assoc]⟩
      · rw [hdup] at hok
        simp only [if_true] at hok
        exact ih t data out hok

/-- Hours present after the primary pass are still present after the
alternate pass. -/
theorem primary_hours_sub {t0 : List Char} {data2 : List Record}
    (h : afterAlt t0 = .ok data2) {hr : Nat}
    (hh : hr ∈ (primaryRecords t0).map Record.Hour) :
    hr ∈ data2.map Record.Hour := by
  obtain ⟨ext, hext⟩ := procAlt_extends _ _ _ _ h
  rw [hext, List.map_append, List.mem_append]
  exact Or.inl hh

/-- Characters of the collapsed text come from the original text or are
the inserted single spaces. -/
theorem mem_collapseWSAux : ∀ (b : Bool) (t : List Char) (c : Char),
    c ∈ collapseWSAux b t → c ∈ t ∨ c = ' ' := by
  intro b t
  induction t generalizing b with
  | nil => intro c hc; simp [collapseWSAux] at hc
  | cons x xs ih =>
    intro c hc
    simp only [collapseWSAux] at hc
    by_cases hsp : pySpace x = true
    · rw [if_pos hsp] at hc
      by_cases hb : b = true
      · rw [if_pos hb] at hc
        rcases ih true c hc with h | h
        · exact Or.inl (List.mem_cons_of_mem _ h)
        · exact Or.inr h
      · rw [if_neg hb] at hc
        rcases List.mem_cons.1 hc with h | h
        · exact Or.inr h
        · rcases ih true c h with h' | h'
          · exact Or.inl (List.mem_cons_of_mem _ h')
          · exact Or.inr h'
    · rw [if_neg hsp] at hc
      rcases List.mem_cons.1 hc with h | h
      · exact Or.inl (h ▸ List.mem_cons_self _ _)
      · rcases ih false c h with h' | h'
        · exact Or.inl (List.mem_cons_of_mem _ h')
        · exact Or.inr h'

theorem dollar_not_mem_textOf {t0 : List Char} (h : '$' ∉ t0) :
    '$' ∉ textOf t0 := by
  intro hc
  rcases mem_collapseWSAux false t0 '$' hc with h' | h'
  · exact h h'
  · simp at h'

/-! ### Recovery-battery characterisation -/

theorem tryRecovery_cons_none {t : List Char} {p : RE} {ps : List RE}
    (h : research p t = none) :
    tryRecovery t (p :: ps) = tryRecovery t ps := by
  simp only [tryRecovery, h]

theorem numGroups_recPat6 : numGroups recPat6 = 2 := by decide

theorem tryRecovery_p6 {t : List Char} {m : Nat × Nat × Caps} {q : Nat} {rev : ℚ}
    (hs : research recPat6 t = some m)
    (hq : parseNat (capStr t m.2.2 1) = some q)
    (hr : parseFloat (capStr t m.2.2 2) = some rev) :
    tryRecovery t [recPat6] = some (some q, rev) := by
  simp only [tryRecovery, hs, numGroups_recPat6]
  norm_num
  simp only [hq, hr]

/-- When the five hour-specific recovery patterns fail but the `M`
pattern matches with parseable groups, the battery recovers the hour
with that quantity and revenue. -/
theorem recoveryFor_p6 {mh : Nat} {t : List Char} {m : Nat × Nat × Caps}
    {q : Nat} {rev : ℚ}
    (h1 : research (recPat1 mh) t = none)
    (h2 : research (recPat2 mh) t = none)
    (h3 : research (recPat3 mh) t = none)
    (h4 : research (recPat4 mh) t = none)
    (h5 : research (recPat5 mh) t = none)
    (h6 : research recPat6 t = some m)
    (hq : parseNat (capStr t m.2.2 1) = some q)
    (hr : parseFloat (capStr t m.2.2 2) = some rev) :
    recoveryFor mh t = some { Hour := mh, Time := timeStr mh, Revenue := rev,
                              Category := categoryOf mh, Quantity := some q } := by
  have hbat : tryRecovery t (recoveryPats mh) = some (some q, rev) := by
    unfold recoveryPats
    rw [tryRecovery_cons_none h1, tryRecovery_cons_none h2,
        tryRecovery_cons_none h3, tryRecovery_cons_none h4,
        tryRecovery_cons_none h5]
    exact tryRecovery_p6 h6 hq hr
  unfold recoveryFor
  rw [hbat]
  rfl

/-- A failing battery and a failing `M HRS` search recover nothing. -/
theorem recoveryFor_none {mh : Nat} {t : List Char}
    (h1 : research (recPat1 mh) t = none)
    (h2 : research (recPat2 mh) t = none)
    (h3 : research (recPat3 mh) t = none)
    (h4 : research (recPat4 mh) t = none)
    (h5 : research (recPat5 mh) t = none)
    (h6 : research recPat6 t = none)
    (h7 : research mHrsPat t = none) :
    recoveryFor mh t = none := by
  have hbat : tryRecovery t (recoveryPats mh) = none := by
    unfold recoveryPats
    rw [tryRecovery_cons_none h1, tryRecovery_cons_none h2,
        tryRecovery_cons_none h3, tryRecovery_cons_none h4,
        tryRecovery_cons_none h5, tryRecovery_cons_none h6]
    rfl
  unfold recoveryFor
  rw [hbat]
  by_cases h14 : mh = 14
  · rw [if_pos h14, h7]
  · rw [if_neg h14]

/-! ### Totality of the pipeline on string input -/

/-- The pipeline returns a record list on every text: the only
conversion outside a `try` block (line 117) receives the hour group of
an alternate-pattern match, which is always a nonempty digit string. -/
theorem parse_total (t0 : List Char) : ∃ l, parse_revenue_data t0 = .ok l := by
  have hall : ∀ c ∈ (refindall altPat (textOf t0)).map (fun m => m.2.2),
      (parseNat (capStr (textOf t0) c 1)).isSome := by
    intro c hc
    obtain ⟨m, hm, hmc⟩ := List.mem_map.1 hc
    rw [← hmc]
    exact alt_hour_parses hm
  obtain ⟨out, hout⟩ := procAlt_ok _ (textOf t0) (primaryRecords t0) hall
  have ha : afterAlt t0 = .ok out := hout
  exact ⟨_, parse_eq_sorted ha⟩

/-! ### Whole-pipeline invariants -/

/-- Every record of the final output carries the hour-derived
category. -/
theorem parse_mem_category {t0 : List Char} {l : List Record} {r : Record}
    (hok : parse_revenue_data t0 = .ok l) (hr : r ∈ l) :
    r.Category = categoryOf r.Hour := by
  obtain ⟨data2, ha, hl⟩ := parse_ok_elim hok
  rw [hl, mem_pysorted] at hr
  rcases List.mem_append.1 hr with hr' | hr15
  · rcases List.mem_append.1 hr' with hr2 | hr14
    · rcases procAlt_mem _ _ _ _ ha r hr2 with hin | ⟨_, hcat⟩
      · exact (procPrimary_mem _ _ r hin).1
      · exact hcat
    · by_cases h14 : 14 ∈ data2.map Record.Hour
      · rw [if_pos h14] at hr14; simp at hr14
      · rw [if_neg h14] at hr14
        rcases ho : recoveryFor 14 (textOf t0) with _ | r' <;> rw [ho] at hr14
        · simp at hr14
        · have : r = r' := by simpa using hr14
          rw [this]
          have hs := recoveryFor_spec ho
          rw [hs.2, hs.1]
  · by_cases h15 : 15 ∈ data2.map Record.Hour
    · rw [if_pos h15] at hr15; simp at hr15
    · rw [if_neg h15] at hr15
      rcases ho : recoveryFor 15 (textOf t0) with _ | r' <;> rw [ho] at hr15
      · simp at hr15
      · have : r = r' := by simpa using hr15
        rw [this]
        have hs := recoveryFor_spec ho
        rw [hs.2, hs.1]

/-- The hour-derived category, unpacked into the boundary facts. -/
theorem category_iff {r : Record} (h : r.Category = categoryOf r.Hour) :
    (r.Category = "Before 3:00 PM" ↔ r.Hour < 15) ∧
    (r.Hour = 15 → r.Category = "After 3:00 PM") := by
  constructor
  · rw [h]
    unfold categoryOf
    by_cases hlt : r.Hour < 15
    · rw [if_pos hlt]
      exact ⟨fun _ => hlt, fun _ => rfl⟩
    · rw [if_neg hlt]
      exact ⟨fun habs => absurd habs (by decide), fun h2 => absurd h2 hlt⟩
  · intro h15
    rw [h, h15]
    decide

/-- LLM-path records: category invariant and the hour range enforced at
line 345. -/
theorem oai_mem_facts {items : List OAIItem} {r : Record}
    (hr : r ∈ processOAI items) :
    r.Category = categoryOf r.Hour ∧ 1 ≤ r.Hour ∧ r.Hour ≤ 23 :=
  procOAIItems_mem items r (mem_pysorted.1 hr)

/-- With-quantity precedence: if the primary pass found a record for an
hour, every final record with that hour is a primary-pass record (and
so carries an explicit quantity). -/
theorem parse_primary_precedence {t0 : List Char} {l : List Record} {r : Record}
    (hok : parse_revenue_data t0 = .ok l) (hr : r ∈ l)
    (hh : r.Hour ∈ (primaryRecords t0).map Record.Hour) :
    r ∈ primaryRecords t0 ∧ r.Quantity.isSome := by
  obtain ⟨data2, ha, hl⟩ := parse_ok_elim hok
  rw [hl, mem_pysorted] at hr
  rcases List.mem_append.1 hr with hr' | hr15
  · rcases List.mem_append.1 hr' with hr2 | hr14
    · rcases procAlt_mem _ _ _ _ ha r hr2 with hin | ⟨hno, _⟩
      · exact ⟨hin, (procPrimary_mem _ _ r hin).2⟩
      · exact absurd hh hno
    · by_cases h14 : 14 ∈ data2.map Record.Hour
      · rw [if_pos h14] at hr14; simp at hr14
      · rw [if_neg h14] at hr14
        rcases ho : recoveryFor 14 (textOf t0) with _ | r' <;> rw [ho] at hr14
        · simp at hr14
        · have hrr : r = r' := by simpa using hr14
          have hs := recoveryFor_spec ho
          rw [hrr] at hh
          rw [hs.1] at hh
          exact absurd (primary_hours_sub ha hh) h14
  · by_cases h15 : 15 ∈ data2.map Record.Hour
    · rw [if_pos h15] at hr15; simp at hr15
    · rw [if_neg h15] at hr15
      rcases ho : recoveryFor 15 (textOf t0) with _ | r' <;> rw [ho] at hr15
      · simp at hr15
      · have hrr : r = r' := by simpa using hr15
        have hs := recoveryFor_spec ho
        rw [hrr] at hh
        rw [hs.1] at hh
        exact absurd (primary_hours_sub ha hh) h15

/-- A list of length at most one has no duplicates. -/
theorem nodup_len_le_one {L : List Nat} (h : L.length ≤ 1) : L.Nodup := by
  rcases L with _ | ⟨a, rest⟩
  · simp
  · rcases rest with _ | ⟨b, r2⟩
    · simp
    · simp at h

/-- Distinct primary hours give a fully hour-distinct output: the
alternate pass and the recovery pass never duplicate an hour. -/
theorem parse_nodup {t0 : List Char} {l : List Record}
    (hok : parse_revenue_data t0 = .ok l)
    (hnd : ((primaryRecords t0).map Record.Hour).Nodup) :
    (l.map Record.Hour).Nodup := by
  obtain ⟨data2, ha, hl⟩ := parse_ok_elim hok
  have hnd2 : (data2.map Record.Hour).Nodup := procAlt_nodup _ _ _ _ ha hnd
  have hperm : List.Perm (l.map Record.Hour)
      ((data2 ++
        (if 14 ∈ data2.map Record.Hour then []
         else (recoveryFor 14 (textOf t0)).toList) ++
        (if 15 ∈ data2.map Record.Hour then []
         else (recoveryFor 15 (textOf t0)).toList)).map Record.Hour) := by
    rw [hl]
    exact (pysorted_perm hourLE _).map Record.Hour
  rw [List.Perm.nodup_iff hperm]
  rw [List.map_append, List.map_append]
  have h14spec : ∀ x ∈ (if 14 ∈ data2.map Record.Hour then []
      else (recoveryFor 14 (textOf t0)).toList).map Record.Hour,
      x = 14 ∧ 14 ∉ data2.map Record.Hour := by
    intro x hx
    by_cases h14 : 14 ∈ data2.map Record.Hour
    · rw [if_pos h14] at hx; simp at hx
    · rw [if_neg h14] at hx
      rcases ho : recoveryFor 14 (textOf t0) with _ | r' <;> rw [ho] at hx
      · simp at hx
      · have : x = r'.Hour := by simpa using hx
        exact ⟨this.trans (recoveryFor_spec ho).1, h14⟩
  have h15spec : ∀ x ∈ (if 15 ∈ data2.map Record.Hour then []
      else (recoveryFor 15 (textOf t0)).toList).map Record.Hour,
      x = 15 ∧ 15 ∉ data2.map Record.Hour := by
    intro x hx
    by_cases h15 : 15 ∈ data2.map Record.Hour
    · rw [if_pos h15] at hx; simp at hx
    · rw [if_neg h15] at hx
      rcases ho : recoveryFor 15 (textOf t0) with _ | r' <;> rw [ho] at hx
      · simp at hx
      · have : x = r'.Hour := by simpa using hx
        exact ⟨this.trans (recoveryFor_spec ho).1, h15⟩
  have hlen : ∀ (o : Option Record),
      ((if 14 ∈ data2.map Record.Hour then [] else o.toList).map Record.Hour).length ≤ 1 := by
    intro o
    by_cases h : 14 ∈ data2.map Record.Hour
    · rw [if_pos h]; simp
    · rw [if_neg h]; cases o <;> simp
  have hlen15 : ∀ (o : Option Record),
      ((if 15 ∈ data2.map Record.Hour then [] else o.toList).map Record.Hour).length ≤ 1 := by
    intro o
    by_cases h : 15 ∈ data2.map Record.Hour
    · rw [if_pos h]; simp
    · rw [if_neg h]; cases o <;> simp
  rw [List.nodup_append]
  refine ⟨?_, nodup_len_le_one (hlen15 _), ?_⟩
  · rw [List.nodup_append]
    refine ⟨hnd2, nodup_len_le_one (hlen _), ?_⟩
    intro x hxA hxB
    obtain ⟨h14, hno⟩ := h14spec x hxB
    rw [h14] at hxA
    exact hno hxA
  · intro x hxAB hxC
    obtain ⟨h15, hno⟩ := h15spec x hxC
    rcases List.mem_append.1 hxAB with hxA | hxB
    · rw [h15] at hxA
      exact hno hxA
    · obtain ⟨h14, _⟩ := h14spec x hxB
      rw [h14] at h15
      exact absurd h15 (by decide)

/-- Every extraction pattern of the source requires a literal `$`
before the amount. -/
theorem all_patterns_need_dollar :
    needsC '$' primaryPat = true ∧ needsC '$' altPat = true ∧
    needsC '$' (recPat1 14) = true ∧ needsC '$' (recPat2 14) = true ∧
    needsC '$' (recPat3 14) = true ∧ needsC '$' (recPat4 14) = true ∧
    needsC '$' (recPat5 14) = true ∧
    needsC '$' (recPat1 15) = true ∧ needsC '$' (recPat2 15) = true ∧
    needsC '$' (recPat3 15) = true ∧ needsC '$' (recPat4 15) = true ∧
    needsC '$' (recPat5 15) = true ∧
    needsC '$' recPat6 = true ∧ needsC '$' mHrsPat = true := by decide

/-- A text with no dollar sign yields the empty output: every pattern
needs a `$`, so no pass produces any record. -/
theorem parse_no_dollar {t0 : List Char} (h : '$' ∉ t0) :
    parse_revenue_data t0 = .ok [] := by
  have hT : '$' ∉ textOf t0 := dollar_not_mem_textOf h
  obtain ⟨n1, n2, n3, n4, n5, n6, n7, n8, n9, n10, n11, n12, n13, n14⟩ :=
    all_patterns_need_dollar
  have hmr : ∀ (p : RE), needsC '$' p = true →
      ∀ q, mrun (stdFuel p (textOf t0)) p (textOf t0) q = [] :=
    fun p hp q => mrun_needsC _ '$' p hp (textOf t0) hT q
  have hprim : refindall primaryPat (textOf t0) = [] := refindall_nil (hmr _ n1)
  have halt : refindall altPat (textOf t0) = [] := refindall_nil (hmr _ n2)
  have hdata1 : primaryRecords t0 = [] := by
    unfold primaryRecords
    rw [hprim]
    rfl
  have hafter : afterAlt t0 = .ok [] := by
    unfold afterAlt
    rw [halt, hdata1]
    rfl
  have hr14 : recoveryFor 14 (textOf t0) = none :=
    recoveryFor_none (research_none (hmr _ n3)) (research_none (hmr _ n4))
      (research_none (hmr _ n5)) (research_none (hmr _ n6))
      (research_none (hmr _ n7)) (research_none (hmr _ n13))
      (research_none (hmr _ n14))
  have hr15 : recoveryFor 15 (textOf t0) = none :=
    recoveryFor_none (research_none (hmr _ n8)) (research_none (hmr _ n9))
      (research_none (hmr _ n10)) (research_none (hmr _ n11))
      (research_none (hmr _ n12)) (research_none (hmr _ n13))
      (research_none (hmr _ n14))
  rw [parse_eq_sorted hafter, hr14, hr15]
  rfl

/-! ### The claims -/

/-- C1: for every record in the final output — of the regex pipeline
and of the LLM-candidate pipeline — the category equals the pure
function of the hour (`hour < 15` gives "Before 3:00 PM", otherwise
"After 3:00 PM"); in particular the category is "Before 3:00 PM" iff
the hour is strictly below 15, and a record with hour exactly 15 is
categorised "After 3:00 PM". -/
theorem spec_C1 :
    (∀ (t0 : List Char) (l : List Record) (r : Record),
      parse_revenue_data t0 = .ok l → r ∈ l →
      r.Category = categoryOf r.Hour ∧
        (r.Category = "Before 3:00 PM" ↔ r.Hour < 15) ∧
        (r.Hour = 15 → r.Category = "After 3:00 PM")) ∧
    (∀ (items : List OAIItem) (r : Record), r ∈ processOAI items →
      r.Category = categoryOf r.Hour ∧
        (r.Category = "Before 3:00 PM" ↔ r.Hour < 15) ∧
        (r.Hour = 15 → r.Category = "After 3:00 PM")) := by
  constructor
  · intro t0 l r hok hr
    have hcat := parse_mem_category hok hr
    exact ⟨hcat, (category_iff hcat).1, (category_iff hcat).2⟩
  · intro items r hr
    have hcat := (oai_mem_facts hr).1
    exact ⟨hcat, (category_iff hcat).1, (category_iff hcat).2⟩

/-- C1 witness: the category facts instantiated on the output record of
a concrete run of each path. -/
theorem spec_C1_witness :
    (({ Hour := 9, Time := "09:00", Revenue := mkRat 10 1,
        Category := "Before 3:00 PM", Quantity := some 2 } : Record).Category =
          categoryOf 9 ∧
      (({ Hour := 9, Time := "09:00", Revenue := mkRat 10 1,
          Category := "Before 3:00 PM", Quantity := some 2 } : Record).Category =
          "Before 3:00 PM" ↔ (9 : Nat) < 15) ∧
      ((9 : Nat) = 15 →
        ({ Hour := 9, Time := "09:00", Revenue := mkRat 10 1,
           Category := "Before 3:00 PM", Quantity := some 2 } : Record).Category =
          "After 3:00 PM")) ∧
    (({ Hour := 9, Time := "09:00", Revenue := mkRat 10 1,
        Category := "Before 3:00 PM", Quantity := none } : Record).Category =
          categoryOf 9 ∧
      (({ Hour := 9, Time := "09:00", Revenue := mkRat 10 1,
          Category := "Before 3:00 PM", Quantity := none } : Record).Category =
          "Before 3:00 PM" ↔ (9 : Nat) < 15) ∧
      ((9 : Nat) = 15 →
        ({ Hour := 9, Time := "09:00", Revenue := mkRat 10 1,
           Category := "Before 3:00 PM", Quantity := none } : Record).Category =
          "After 3:00 PM")) :=
  ⟨spec_C1.1 ("9 HRS 2 $10.00".data)
      [{ Hour := 9, Time := "09:00", Revenue := mkRat 10 1,
         Category := "Before 3:00 PM", Quantity := some 2 }] _ (by rfl) (by decide),
   spec_C1.2 [{ Hour := 9, Revenue := "10.00".data, Quantity := none }] _ (by decide)⟩

/-- C2 counterexample: the claim says an hour outside [7,23] — for
example 25 — is dropped in both paths, but the regex path performs no
hour-range check at all: the text `25 HRS 3 $10.00` yields a record
with hour 25 in the final output. -/
theorem spec_C2_counterexample :
    (parse_revenue_data "25 HRS 3 $10.00".data).toOption.map
      (List.map Record.Hour) = some [25] := by decide

/-- C2 amended: only the LLM-candidate path checks the hour, and it
checks `hour <= 0 or hour > 23` (dropping silently, with no
diagnostic); every LLM-path output record has hour in [1,23].  The
regex path has no range check, as the counterexample shows. -/
theorem spec_C2 : ∀ (items : List OAIItem) (r : Record),
    r ∈ processOAI items → 1 ≤ r.Hour ∧ r.Hour ≤ 23 :=
  fun _ _ hr => (oai_mem_facts hr).2

/-- C2 witness: the range facts on a concrete LLM-path run. -/
theorem spec_C2_witness :
    1 ≤ ({ Hour := 9, Time := "09:00", Revenue := mkRat 10 1,
           Category := "Before 3:00 PM", Quantity := none } : Record).Hour ∧
    ({ Hour := 9, Time := "09:00", Revenue := mkRat 10 1,
       Category := "Before 3:00 PM", Quantity := none } : Record).Hour ≤ 23 :=
  spec_C2 [{ Hour := 9, Revenue := "10.00".data, Quantity := none }] _ (by decide)

/-- C3 counterexample: two primary-pattern matches for the same hour
both appear — the text `9 HRS 1 $10.00 9 HRS 2 $20.00` produces two
records with hour 9. -/
theorem spec_C3_counterexample :
    (parse_revenue_data "9 HRS 1 $10.00 9 HRS 2 $20.00".data).toOption.map
      (List.map Record.Hour) = some [9, 9] := by decide

/-- C3 amended: deduplication applies only between passes — the
alternate pass and the 14/15 recovery never add an hour already
present — so whenever the primary-pass records already have pairwise
distinct hours, the final output has pairwise distinct hours; but
duplicate hours among primary matches all appear (see the
counterexample). -/
theorem spec_C3 : ∀ (t0 : List Char) (l : List Record),
    parse_revenue_data t0 = .ok l →
    ((primaryRecords t0).map Record.Hour).Nodup →
    (l.map Record.Hour).Nodup :=
  fun _ _ hok hnd => parse_nodup hok hnd

/-- C3 witness: hour-distinctness of a concrete output. -/
theorem spec_C3_witness :
    (([{ Hour := 9, Time := "09:00", Revenue := mkRat 10 1,
         Category := "Before 3:00 PM", Quantity := some 2 }] : List Record).map
      Record.Hour).Nodup :=
  spec_C3 ("9 HRS 2 $10.00".data) _ (by rfl) (by decide)

/-- C4: whenever the primary (quantity-bearing) pass produced a record
for an hour, every final record with that hour is one of those primary
records — so a with-quantity candidate beats a quantity-less candidate
for the same hour regardless of where the two occur in the document —
and it carries an explicit quantity. -/
theorem spec_C4 : ∀ (t0 : List Char) (l : List Record) (r : Record),
    parse_revenue_data t0 = .ok l → r ∈ l →
    r.Hour ∈ (primaryRecords t0).map Record.Hour →
    r ∈ primaryRecords t0 ∧ r.Quantity.isSome :=
  fun _ _ _ hok hr hh => parse_primary_precedence hok hr hh

/-- C4 witness: in `9 HRS $5.00 9 HRS 3 $10.00` the quantity-less
hour-9 candidate appears first, yet the kept record is the
quantity-bearing one. -/
theorem spec_C4_witness :
    ({ Hour := 9, Time := "09:00", Revenue := mkRat 10 1,
       Category := "Before 3:00 PM", Quantity := some 3 } : Record) ∈
        primaryRecords ("9 HRS $5.00 9 HRS 3 $10.00".data) ∧
    ({ Hour := 9, Time := "09:00", Revenue := mkRat 10 1,
       Category := "Before 3:00 PM", Quantity := some 3 } : Record).Quantity.isSome :=
  spec_C4 ("9 HRS $5.00 9 HRS 3 $10.00".data)
    [{ Hour := 9, Time := "09:00", Revenue := mkRat 10 1,
       Category := "Before 3:00 PM", Quantity := some 3 }] _
    (by rfl) (by decide) (by decide)

/-- C5: if hour 14 is still absent after the primary and alternate
passes, none of the five hour-14 recovery patterns matches, and the `M`
pattern (`M\s*(?:HRS|HR|H).*?(\d+).*?\$(\d+\.\d+)`) matches with groups
parsing to 21 and 134.19 — as in a text containing `M HRS 21 $134.19`
and no other hour-14 pattern — then the output contains the record with
hour 14, quantity 21, revenue 134.19 and category "Before 3:00 PM". -/
theorem spec_C5 : ∀ (t0 : List Char) (data2 : List Record)
    (m : Nat × Nat × Caps),
    afterAlt t0 = .ok data2 →
    14 ∉ data2.map Record.Hour →
    research (recPat1 14) (textOf t0) = none →
    research (recPat2 14) (textOf t0) = none →
    research (recPat3 14) (textOf t0) = none →
    research (recPat4 14) (textOf t0) = none →
    research (recPat5 14) (textOf t0) = none →
    research recPat6 (textOf t0) = some m →
    parseNat (capStr (textOf t0) m.2.2 1) = some 21 →
    parseFloat (capStr (textOf t0) m.2.2 2) = some (mkRat 13419 100) →
    ∃ l, parse_revenue_data t0 = .ok l ∧
      ({ Hour := 14, Time := "14:00", Revenue := mkRat 13419 100,
         Category := "Before 3:00 PM", Quantity := some 21 } : Record) ∈ l := by
  intro t0 data2 m ha h14 p1 p2 p3 p4 p5 p6 hq hrev
  have hrec := recoveryFor_p6 p1 p2 p3 p4 p5 p6 hq hrev
  refine ⟨_, parse_eq_sorted ha, ?_⟩
  rw [mem_pysorted]
  refine List.mem_append.2 (Or.inl (List.mem_append.2 (Or.inr ?_)))
  rw [if_neg h14, hrec]
  simp only [Option.toList_some, List.mem_singleton]
  decide

/-- C5 witness: the recovery on the text `M HRS 21 $134.19` itself. -/
theorem spec_C5_witness :
    ∃ l, parse_revenue_data ("M HRS 21 $134.19".data) = .ok l ∧
      ({ Hour := 14, Time := "14:00", Revenue := mkRat 13419 100,
         Category := "Before 3:00 PM", Quantity := some 21 } : Record) ∈ l :=
  spec_C5 ("M HRS 21 $134.19".data) [] (0, 16, [(2, 10, 16), (1, 6, 8)])
    (by rfl) (by decide) (by decide) (by decide) (by decide) (by decide)
    (by decide) (by decide) (by decide) (by decide)

/-- C6 counterexample: the claim says `$1,270.17` parses to 1270.17,
but no code strips thousands separators from amounts: the amount
pattern admits only `\d+\.\d{2}` directly after the `$`, so the
otherwise well-formed line `9 HRS 2 $1,270.17` yields no record at
all. -/
theorem spec_C6_counterexample :
    parse_revenue_data ("9 HRS 2 $1,270.17".data) = .ok [] := by rfl

/-- C6 amended: an amount with a thousands separator is not parsed in
either path — the regex path yields no record for the line, and the
LLM path's float conversion fails on the comma so the item is skipped —
whereas the same line without the separator parses to 1270.17 in both
paths. -/
theorem spec_C6 :
    parse_revenue_data ("9 HRS 2 $1270.17".data) = .ok
      [{ Hour := 9, Time := "09:00", Revenue := mkRat 127017 100,
         Category := "Before 3:00 PM", Quantity := some 2 }] ∧
    processOAI [{ Hour := 9, Revenue := "$1,270.17".data, Quantity := none }] = [] ∧
    processOAI [{ Hour := 9, Revenue := "$1270.17".data, Quantity := none }] =
      [{ Hour := 9, Time := "09:00", Revenue := mkRat 127017 100,
         Category := "Before 3:00 PM", Quantity := none }] :=
  ⟨by rfl, by decide, by decide⟩

/-- C7: the pipeline is deterministic — it is embedded as a pure
function of the text (the source uses no randomness and no state
carried across runs; regex matching, the passes and the stable sort are
all functions of the text alone), so two runs on the same text return
identical record sequences. -/
theorem spec_C7 : ∀ t0 : List Char,
    parse_revenue_data t0 = parse_revenue_data t0 :=
  fun _ => rfl

/-- C8: on absent (null) input the pipeline raises (a `TypeError` from
`re.sub` at line 68); on every actual text — empty or arbitrarily
malformed — it returns a (possibly empty) record list and never raises:
every fallible conversion is protected by a `try` except the hour
conversion at line 117, whose argument is always a nonempty digit
string; and the aggregator maps the empty record set to an empty
result. -/
theorem spec_C8 :
    parse_opt none = .error "TypeError: expected string or bytes-like object" ∧
    (∀ t0 : List Char, ∃ l, parse_opt (some t0) = .ok l) ∧
    analyze_revenue_data [] = [] :=
  ⟨rfl, fun t0 => parse_total t0, rfl⟩

/-- C9 counterexample: the claim says some text with an hour entry that
lacks a currency symbol yields a candidate through a currency-less
pattern, but no such pattern exists: every pattern in the source
requires a literal `$`, and the canonical currency-less entry
`9 HRS 2 10.00` yields no record at all. -/
theorem spec_C9_counterexample :
    parse_revenue_data ("9 HRS 2 10.00".data) = .ok [] := by rfl

/-- C9 amended: there is no currency-less pattern — every extraction
pattern (primary, alternate, all recovery patterns and the `M HRS`
special case) requires a literal `$` before the amount, so a text
containing no `$` at all yields the empty output. -/
theorem spec_C9 : ∀ t0 : List Char, '$' ∉ t0 →
    parse_revenue_data t0 = .ok [] :=
  fun _ h => parse_no_dollar h

/-- C9 witness: a currency-less hour entry produces nothing. -/
theorem spec_C9_witness :
    parse_revenue_data ("16 HRS 2 20.00".data) = .ok [] :=
  spec_C9 ("16 HRS 2 20.00".data) (by decide)

/-- C10 counterexample: the claim states that whenever hours 14 and 15
are both absent after the primary and alternate passes and the text
contains an `M`-marker substring, both emitted records carry the
quantity and revenue of that substring; but the `M` pattern is only the
sixth entry of the recovery battery, so on
`l4 HRS $9.99 M HRS 21 $134.19` hour 14 is recovered by the earlier
`l4`-tolerant pattern with revenue 9.99 and no quantity, while hour 15
gets 134.19 with quantity 21 — the two records do not carry the same
values. -/
theorem spec_C10_counterexample :
    (parse_revenue_data ("l4 HRS $9.99 M HRS 21 $134.19".data)).toOption.map
      (List.map (fun r => (r.Hour, r.Revenue, r.Quantity))) =
    some [(4, mkRat 999 100, none), (14, mkRat 999 100, none),
          (15, mkRat 13419 100, some 21)] := by decide

/-- C10 amended: if hours 14 and 15 are both absent after the primary
and alternate passes, none of the five earlier recovery patterns for
either hour matches, and the `M` pattern matches with groups parsing to
quantity `q` and revenue `rev`, then the output contains records for
both hour 14 (category "Before 3:00 PM") and hour 15 (category
"After 3:00 PM"), each carrying that same `q` and `rev`. -/
theorem spec_C10 : ∀ (t0 : List Char) (data2 : List Record)
    (m : Nat × Nat × Caps) (q : Nat) (rev : ℚ),
    afterAlt t0 = .ok data2 →
    14 ∉ data2.map Record.Hour →
    15 ∉ data2.map Record.Hour →
    research (recPat1 14) (textOf t0) = none →
    research (recPat2 14) (textOf t0) = none →
    research (recPat3 14) (textOf t0) = none →
    research (recPat4 14) (textOf t0) = none →
    research (recPat5 14) (textOf t0) = none →
    research (recPat1 15) (textOf t0) = none →
    research (recPat2 15) (textOf t0) = none →
    research (recPat3 15) (textOf t0) = none →
    research (recPat4 15) (textOf t0) = none →
    research (recPat5 15) (textOf t0) = none →
    research recPat6 (textOf t0) = some m →
    parseNat (capStr (textOf t0) m.2.2 1) = some q →
    parseFloat (capStr (textOf t0) m.2.2 2) = some rev →
    ∃ l, parse_revenue_data t0 = .ok l ∧
      ({ Hour := 14, Time := "14:00", Revenue := rev,
         Category := "Before 3:00 PM", Quantity := some q } : Record) ∈ l ∧
      ({ Hour := 15, Time := "15:00", Revenue := rev,
         Category := "After 3:00 PM", Quantity := some q } : Record) ∈ l := by
  intro t0 data2 m q rev ha h14 h15 a1 a2 a3 a4 a5 b1 b2 b3 b4 b5 p6 hq hrev
  have hrec14 := recoveryFor_p6 a1 a2 a3 a4 a5 p6 hq hrev
  have hrec15 := recoveryFor_p6 b1 b2 b3 b4 b5 p6 hq hrev
  refine ⟨_, parse_eq_sorted ha, ?_, ?_⟩
  · rw [mem_pysorted]
    refine List.mem_append.2 (Or.inl (List.mem_append.2 (Or.inr ?_)))
    rw [if_neg h14, hrec14]
    simp only [Option.toList_some, List.mem_singleton]
    have ht : timeStr 14 = "14:00" := by decide
    have hc : categoryOf 14 = "Before 3:00 PM" := by decide
    rw [ht, hc]
  · rw [mem_pysorted]
    refine List.mem_append.2 (Or.inr ?_)
    rw [if_neg h15, hrec15]
    simp only [Option.toList_some, List.mem_singleton]
    have ht : timeStr 15 = "15:00" := by decide
    have hc : categoryOf 15 = "After 3:00 PM" := by decide
    rw [ht, hc]

/-- C10 witness: the amended statement on `M HRS 21 $134.19` itself,
where both hours are recovered from the single `M` substring. -/
theorem spec_C10_witness :
    ∃ l, parse_revenue_data ("M HRS 21 $134.19".data) = .ok l ∧
      ({ Hour := 14, Time := "14:00", Revenue := mkRat 13419 100,
         Category := "Before 3:00 PM", Quantity := some 21 } : Record) ∈ l ∧
      ({ Hour := 15, Time := "15:00", Revenue := mkRat 13419 100,
         Category := "After 3:00 PM", Quantity := some 21 } : Record) ∈ l :=
  spec_C10 ("M HRS 21 $134.19".data) [] (0, 16, [(2, 10, 16), (1, 6, 8)])
    21 (mkRat 13419 100)
    (by rfl) (by decide) (by decide) (by decide) (by decide) (by decide)
    (by decide) (by decide) (by decide) (by decide) (by decide) (by decide)
    (by decide) (by decide) (by decide) (by decide)

end PDFRevenue
